import Mathlib

/-!
Verification of the sharable-links service (NestJS + Prisma + PostgreSQL).

The development shallowly embeds the business layer of the repository:
`LinksService.createLink`, `LinksService.resolve`, `LinksService.recordClick`
and `LinksService.getStats` from `src/links/links.service.ts`, together with
the redirect handler of `src/links/links.controller.ts`.

Modelling conventions:
- The Prisma/PostgreSQL store is a pure state (`Store`): a list of `Link`
  rows and a list of `Click` rows, with the uniqueness constraints of the
  migration (`links_short_code_key`, `links_target_url_key`) enforced by
  `insertLink`, which reports which unique key conflicted exactly as the
  service reads it off `PrismaClientKnownRequestError.meta.target`.
- `Prisma.Decimal` money values carry exactly two decimal places here
  (column type `DECIMAL(10,2)`); they are represented as an exact integer
  number of cents (`0.05` is `5`, `0.00` is `0`).  Decimal sums computed by
  the database (`SUM(earned_credit)`) are therefore exact `Nat` sums.
- The JavaScript expression `Number(decimal).toFixed(2)` used by `getStats`
  is modelled faithfully: `jsFixed2OfCents` first rounds the exact value
  `c / 100` to the nearest IEEE-754 binary64 value (round half to even on a
  53-bit significand; the scaled-significand computation is done in exact
  integer arithmetic) and then applies the ECMAScript `toFixed(2)` rounding
  (nearest hundredth, ties away from below).  Overflow/subnormal cases are
  irrelevant to the representable range of the schema.
- The random `nanoid(8)` generator is a parameter `gen : Nat -> String`
  giving the code drawn at each insert attempt, and timestamps are explicit
  parameters.
-/

instance {ε α : Type} [DecidableEq ε] [DecidableEq α] : DecidableEq (Except ε α) := fun a b =>
  match a, b with
  | Except.ok x, Except.ok y =>
    if h : x = y then isTrue (by rw [h]) else isFalse (by intro hc; cases hc; exact h rfl)
  | Except.error x, Except.error y =>
    if h : x = y then isTrue (by rw [h]) else isFalse (by intro hc; cases hc; exact h rfl)
  | Except.ok _, Except.error _ => isFalse (by intro hc; cases hc)
  | Except.error _, Except.ok _ => isFalse (by intro hc; cases hc)

/-- Two-digit zero padding, as in `String(n).padStart(2, '0')`. -/
def pad2 (n : Nat) : String :=
  if n < 10 then "0" ++ toString n else toString n

/-- Exact decimal rendering of a cent amount with two decimal places
("1.00", "0.05", ...).  This is the reference value the formatted service
outputs are compared against. -/
def formatCents (c : Nat) : String :=
  toString (c / 100) ++ "." ++ pad2 (c % 100)

/-- Rounding of the ratio `n / m` to the nearest integer with ties to even,
the rounding used by IEEE-754 binary64 when a real value is converted to the
nearest representable double. -/
def rhe (n m : Nat) : Nat :=
  let q := n / m
  let r := n % m
  if 2 * r < m then q
  else if m < 2 * r then q + 1
  else if q % 2 = 0 then q else q + 1

/-- Smallest number of doublings that brings `v` up to `100 * 2 ^ 52`,
computed with explicit fuel so that the definition is structural. -/
def findScaleAux : Nat → Nat → Nat
  | 0, _ => 0
  | fuel + 1, v => if 100 * 2 ^ 52 ≤ v then 0 else findScaleAux fuel (2 * v) + 1

/-- Binary scale `s` such that the significand `c * 2 ^ s / 100` of the real
value `c / 100` lies in the binade `[2 ^ 52, 2 ^ 53)` of a binary64 double.
The fuel 200 is ample for every positive value of the `DECIMAL(10,2)`
schema. -/
def findScale (c : Nat) : Nat := findScaleAux 200 c

/-- Model of the JavaScript pipeline `Number(decimal).toFixed(2)` applied to
the exact decimal value `c / 100` (an aggregate of `earned_credit` values):
convert to the nearest binary64 double `m / 2 ^ s` (round half to even), then
format with ECMAScript `toFixed(2)`, which picks the integer `n` minimising
`|n / 100 - x|`, ties resolved to the larger `n`, i.e.
`n = floor(100 * x + 1/2)`. -/
def jsFixed2OfCents (c : Nat) : String :=
  if c = 0 then formatCents 0
  else
    let s := findScale c
    let m := rhe (c * 2 ^ s) 100
    formatCents ((100 * m + 2 ^ (s - 1)) / 2 ^ s)

/-- Calendar timestamp (UTC) of a click, at the granularity the monthly
aggregation needs: `DATE_TRUNC('month', clicked_at)` keeps year and month,
and the label is printed from the UTC month and year. -/
structure DateParts where
  year : Nat
  month : Nat
  day : Nat
deriving DecidableEq, Repr

/-- Row of the `links` table: `id SERIAL`, `short_code` unique,
`target_url` unique, `created_at` timestamp. -/
structure Link where
  id : Nat
  shortCode : String
  targetUrl : String
  createdAt : Nat
deriving DecidableEq, Repr

/-- Row of the `clicks` table: `id SERIAL`, `link_id` foreign key,
`is_valid BOOLEAN`, `earned_credit DECIMAL(10,2)` in cents,
`clicked_at` timestamp. -/
structure Click where
  id : Nat
  linkId : Nat
  isValid : Bool
  earnedCredit : Nat
  clickedAt : DateParts
deriving DecidableEq, Repr

/-- State of the PostgreSQL database. -/
structure Store where
  links : List Link
  clicks : List Click
deriving DecidableEq, Repr

/-- Lookup `prisma.link.findUnique({ where: { targetUrl } })`. -/
def findLinkByTargetUrl (st : Store) (url : String) : Option Link :=
  st.links.find? (fun l => l.targetUrl == url)

/-- Lookup `prisma.link.findUnique({ where: { shortCode } })`. -/
def findLinkByShortCode (st : Store) (code : String) : Option Link :=
  st.links.find? (fun l => l.shortCode == code)

/-- Identifier the `SERIAL` column assigns to the next inserted link. -/
def nextLinkId (st : Store) : Nat := st.links.length + 1

/-- Identifier the `SERIAL` column assigns to the next inserted click. -/
def nextClickId (st : Store) : Nat := st.clicks.length + 1

/-- Result of `prisma.link.create`: either the new row, or a `P2002`
unique-constraint violation whose `meta.target` names the violated key
(`target_url` or `short_code`). -/
inductive InsertResult where
  | ok (st : Store) (l : Link)
  | uniqueTargetUrl
  | uniqueShortCode
deriving DecidableEq, Repr

/-- Model of `prisma.link.create({ data: { shortCode, targetUrl } })`
against the unique indexes `links_target_url_key` and
`links_short_code_key`. -/
def insertLink (st : Store) (code url : String) (now : Nat) : InsertResult :=
  if st.links.any (fun l => l.targetUrl == url) then InsertResult.uniqueTargetUrl
  else if st.links.any (fun l => l.shortCode == code) then InsertResult.uniqueShortCode
  else
    let l : Link := ⟨nextLinkId st, code, url, now⟩
    InsertResult.ok ⟨st.links ++ [l], st.clicks⟩ l

/-- Failures `createLink` can surface: the rethrown `P2002` of the last
retry attempt, and the (unreachable) post-loop
`Error('Failed to generate unique short code after retries')`. -/
inductive CreateErr where
  | codeSpaceExhausted
  | retriesExhausted
deriving DecidableEq, Repr

/-- Return shape of `createLink`. -/
structure CreateResult where
  shortCode : String
  targetUrl : String
  isNew : Bool
deriving DecidableEq, Repr

/-- Retry loop of `LinksService.createLink` (`for (let attempt = 0; ...)`):
one traversal step per generated code.  The third component counts the
insert attempts the store received.  On a `P2002` whose target is
`target_url` the service re-reads and returns the winning row with
`isNew = false`; if that re-read unexpectedly finds nothing it falls through
to the collision path.  On a short-code collision it retries, rethrowing the
error when the attempt budget (the code list) is spent. -/
def createLinkLoop (st : Store) (url : String) (now : Nat) :
    List String → Except CreateErr CreateResult × Store × Nat
  | [] => (Except.error CreateErr.retriesExhausted, st, 0)
  | code :: rest =>
    match insertLink st code url now with
    | InsertResult.ok st2 l => (Except.ok ⟨l.shortCode, l.targetUrl, true⟩, st2, 1)
    | InsertResult.uniqueTargetUrl =>
      match findLinkByTargetUrl st url with
      | some existing =>
        (Except.ok ⟨existing.shortCode, existing.targetUrl, false⟩, st, 1)
      | none =>
        match rest with
        | [] => (Except.error CreateErr.codeSpaceExhausted, st, 1)
        | _ :: _ =>
          match createLinkLoop st url now rest with
          | (r, st2, k) => (r, st2, k + 1)
    | InsertResult.uniqueShortCode =>
      match rest with
      | [] => (Except.error CreateErr.codeSpaceExhausted, st, 1)
      | _ :: _ =>
        match createLinkLoop st url now rest with
        | (r, st2, k) => (r, st2, k + 1)

/-- Attempt budget `maxRetries = 3` of `LinksService.createLink`. -/
def maxRetries : Nat := 3

/-- Model of `LinksService.createLink(targetUrl)`: dedup lookup first, then
the bounded insert-retry loop with one `nanoid(8)` draw (`gen attempt`) per
attempt.  Returns the service result, the final store state, and the number
of insert attempts the store received. -/
def createLink (st : Store) (url : String) (gen : Nat → String) (now : Nat) :
    Except CreateErr CreateResult × Store × Nat :=
  match findLinkByTargetUrl st url with
  | some existing => (Except.ok ⟨existing.shortCode, existing.targetUrl, false⟩, st, 0)
  | none => createLinkLoop st url now ((List.range maxRetries).map gen)

/-- NotFound condition of `LinksService.resolve`
(`NotFoundException('Short link not found')`). -/
inductive ResolveErr where
  | notFound
deriving DecidableEq, Repr

/-- Model of `LinksService.resolve(shortCode)`.  The store state is threaded
through so that read-onlyness is a provable statement rather than a typing
convention. -/
def resolve (st : Store) (code : String) : Except ResolveErr String × Store :=
  match findLinkByShortCode st code with
  | none => (Except.error ResolveErr.notFound, st)
  | some l => (Except.ok l.targetUrl, st)

/-- Model of `LinksService.recordClick(shortCode)`, parameterised by the
boolean the fraud validator would return.  The second component counts the
invocations of `fraudService.validate()`: the validator only runs when the
link was found.  `earnedCredit` is `Prisma.Decimal('0.05')` (5 cents) when
valid and `Prisma.Decimal('0.00')` (0 cents) otherwise. -/
def recordClick (st : Store) (code : String) (fraudResult : Bool)
    (now : DateParts) : Store × Nat :=
  match findLinkByShortCode st code with
  | none => (st, 0)
  | some link =>
    let earnedCredit : Nat := if fraudResult then 5 else 0
    (⟨st.links, st.clicks ++ [⟨nextClickId st, link.id, fraudResult, earnedCredit, now⟩]⟩, 1)

/-- Entry of `monthlyBreakdown` in `LinkStatsResponse`
(`src/links/dto/link-stats.dto.ts`): label `"MM/YYYY"`, click count, and
earnings formatted to two decimals. -/
structure MonthRow where
  month : String
  clicks : Nat
  earnings : String
deriving DecidableEq, Repr

/-- Per-link entry of the stats response. -/
structure LinkStatsItem where
  shortCode : String
  url : String
  totalClicks : Nat
  totalEarnings : String
  monthlyBreakdown : List MonthRow
deriving DecidableEq, Repr

/-- Pagination metadata of the stats response. -/
structure PaginationMeta where
  page : Nat
  limit : Nat
  totalItems : Nat
  totalPages : Nat
deriving DecidableEq, Repr

/-- The stats response. -/
structure LinkStatsResponse where
  data : List LinkStatsItem
  meta : PaginationMeta
deriving DecidableEq, Repr

/-- Clicks referencing a link (`WHERE link_id = ...`). -/
def clicksOf (st : Store) (linkId : Nat) : List Click :=
  st.clicks.filter (fun c => c.linkId == linkId)

/-- Exact decimal aggregate `SUM(earned_credit)`, in cents.  PostgreSQL sums
`DECIMAL` columns in exact decimal arithmetic, so the sum is an exact
integer number of cents. -/
def sumEarnedCredit (clicks : List Click) : Nat :=
  (clicks.map (fun c => c.earnedCredit)).sum

/-- Calendar month of a click, the grouping key of
`DATE_TRUNC('month', clicked_at)`. -/
def monthKey (c : Click) : Nat × Nat := (c.clickedAt.year, c.clickedAt.month)

/-- Chronological order on `(year, month)` keys, the `ORDER BY month ASC` of
the raw aggregation query. -/
def monthLe (a b : Nat × Nat) : Prop :=
  a.1 < b.1 ∨ (a.1 = b.1 ∧ a.2 ≤ b.2)

/-- Strict chronological order on `(year, month)` keys. -/
def monthLt (a b : Nat × Nat) : Prop :=
  a.1 < b.1 ∨ (a.1 = b.1 ∧ a.2 < b.2)

instance : DecidableRel monthLe := fun a b => by unfold monthLe; infer_instance

instance : IsTotal (Nat × Nat) monthLe :=
  ⟨by intro a b; unfold monthLe; omega⟩

instance : IsTrans (Nat × Nat) monthLe :=
  ⟨by intro a b c; unfold monthLe; omega⟩

/-- Distinct months occurring among `clicks`, in ascending order: the key
set produced by `GROUP BY DATE_TRUNC('month', clicked_at)` with
`ORDER BY month ASC`. -/
def monthsOf (clicks : List Click) : List (Nat × Nat) :=
  List.insertionSort monthLe (clicks.map monthKey).dedup

/-- Month rows of the raw SQL query, after the JavaScript mapping: label
`"MM/YYYY"` from the UTC month and year, `Number(row.clicks)`, and
`Number(row.earnings).toFixed(2)`. -/
def monthlyBreakdown (clicks : List Click) : List MonthRow :=
  (monthsOf clicks).map (fun k =>
    let inMonth := clicks.filter (fun c => monthKey c == k)
    ⟨pad2 k.2 ++ "/" ++ toString k.1,
     inMonth.length,
     jsFixed2OfCents (sumEarnedCredit inMonth)⟩)

/-- Per-link block of `getStats`: the `click.aggregate` call
(`_count`, `_sum.earnedCredit`) and the raw monthly aggregation.
`aggregation._sum.earnedCredit` is `null` when the link has no clicks, and
`Number(null) || 0` is `0`, the same value the sum-of-cents model yields. -/
def linkStats (st : Store) (link : Link) : LinkStatsItem :=
  let clicks := clicksOf st link.id
  ⟨link.shortCode, link.targetUrl, clicks.length,
   jsFixed2OfCents (sumEarnedCredit clicks),
   monthlyBreakdown clicks⟩

/-- Most-recent-first order on links, the `orderBy: { createdAt: 'desc' }`
of the paginated scan. -/
def createdAtGe (a b : Link) : Prop := b.createdAt ≤ a.createdAt

instance : DecidableRel createdAtGe := fun a b => by unfold createdAtGe; infer_instance

instance : IsTotal Link createdAtGe := ⟨fun a b => le_total b.createdAt a.createdAt⟩

instance : IsTrans Link createdAtGe :=
  ⟨fun _ _ _ h1 h2 => le_trans h2 h1⟩

/-- Links sorted most recent first. -/
def sortedLinks (st : Store) : List Link :=
  List.insertionSort createdAtGe st.links

/-- Model of `LinksService.getStats(page, limit)`: paginated scan with
`skip = (page - 1) * limit` and `take = limit`, total count, per-link stats,
and `totalPages = Math.ceil(totalItems / limit)` (exact ceiling division;
`Math.ceil` computes it exactly throughout the validated input range). -/
def getStats (st : Store) (page limit : Nat) : LinkStatsResponse :=
  let pageLinks := ((sortedLinks st).drop ((page - 1) * limit)).take limit
  let totalItems := st.links.length
  ⟨pageLinks.map (linkStats st),
   ⟨page, limit, totalItems, (totalItems + limit - 1) / limit⟩⟩

/-- Observable events of the redirect request path, in program order. -/
inductive RedirectEvent where
  | redirectSent (url : String) (status : Nat)
  | clickRecorded
  | errorLogged
deriving DecidableEq, Repr

/-- Outcome of the redirect handler: the HTTP response committed to the
caller and the ordered trace of events after the handler resumed. -/
structure RedirectOutcome where
  response : Except ResolveErr (Nat × String)
  events : List RedirectEvent
deriving DecidableEq, Repr

/-- Model of `LinksController.redirect`: `resolve` is awaited and its
failure propagates (the boundary maps it to 404); on success the handler
calls `res.redirect(302, targetUrl)` first and only then dispatches
`recordClick(shortCode).catch(err => logger.error(...))` without awaiting
it.  `recordFails` says whether the detached sequence fails (fraud-validator
or store failure); the attached `.catch` turns such a failure into a log
entry and nothing else. -/
def redirectHandler (st : Store) (code : String) (fraudResult : Bool)
    (recordFails : Bool) (now : DateParts) : RedirectOutcome × Store :=
  match resolve st code with
  | (Except.error e, st1) => (⟨Except.error e, []⟩, st1)
  | (Except.ok url, st1) =>
    let sent := RedirectEvent.redirectSent url 302
    if recordFails then (⟨Except.ok (302, url), [sent, RedirectEvent.errorLogged]⟩, st1)
    else
      (⟨Except.ok (302, url), [sent, RedirectEvent.clickRecorded]⟩,
       (recordClick st1 code fraudResult now).1)

/-! Fixture data used by the concrete witnesses. -/

/-- Fixture link. -/
def linkA : Link := ⟨1, "abc12345", "https://a.com", 10⟩

/-- Fixture store holding one link and nothing else. -/
def storeA : Store := ⟨[linkA], []⟩

/-- Fixture store holding one link and 20 valid clicks of 0.05 each. -/
def storeTwenty : Store :=
  ⟨[linkA], (List.range 20).map (fun i => ⟨i + 1, 1, true, 5, ⟨2026, 1, 1⟩⟩)⟩

/-- Fixture store whose links use up the short codes `c0` and `c1`. -/
def storeTwoCodes : Store :=
  ⟨[⟨1, "c0", "https://b.com", 11⟩, ⟨2, "c1", "https://c.com", 12⟩], []⟩

/-- Fixture store whose links use up the short codes `c0`, `c1` and `c2`. -/
def storeThreeCodes : Store :=
  ⟨[⟨1, "c0", "https://b.com", 11⟩, ⟨2, "c1", "https://c.com", 12⟩,
    ⟨3, "c2", "https://d.com", 13⟩], []⟩

/-- Fixture generator drawing the short codes `c0`, `c1`, `c2`, ... -/
def genC (i : Nat) : String := "c" ++ toString i

/-- Fixture store with clicks on 2025-12-15, 2025-12-28 and 2026-01-03. -/
def storeMonths : Store :=
  ⟨[linkA],
   [⟨1, 1, true, 5, ⟨2025, 12, 15⟩⟩, ⟨2, 1, true, 5, ⟨2025, 12, 28⟩⟩,
    ⟨3, 1, true, 5, ⟨2026, 1, 3⟩⟩]⟩

/-- Fixture store holding 42 links. -/
def storeFortyTwo : Store :=
  ⟨(List.range 42).map (fun i => ⟨i + 1, toString i, "u" ++ toString i, i⟩), []⟩

/-! Helper lemmas: exactness of the formatting pipeline. -/

/-- Round-half-to-even of `n / 100` lands within half a unit of the exact
ratio: `|100 * rhe n 100 - n| ≤ 50`. -/
theorem rhe_100_bounds (n : Nat) : 100 * rhe n 100 ≤ n + 50 ∧ n ≤ 100 * rhe n 100 + 50 := by
  have h := Nat.div_add_mod n 100
  have hr : n % 100 < 100 := Nat.mod_lt _ (by norm_num)
  unfold rhe
  dsimp only
  split
  · omega
  · split
    · omega
    · split <;> omega

/-- With enough fuel, `findScaleAux` reaches the binade threshold. -/
theorem findScaleAux_reaches (fuel : Nat) :
    ∀ v : Nat, 100 * 2 ^ 52 ≤ 2 ^ fuel * v →
      100 * 2 ^ 52 ≤ v * 2 ^ findScaleAux fuel v := by
  induction fuel with
  | zero => intro v hv; unfold findScaleAux; simpa using hv
  | succ fuel ih =>
    intro v hv
    unfold findScaleAux
    split
    · next h => simpa using h
    · have hv2 : 100 * 2 ^ 52 ≤ 2 ^ fuel * (2 * v) := by
        calc 100 * 2 ^ 52 ≤ 2 ^ (fuel + 1) * v := hv
          _ = 2 ^ fuel * (2 * v) := by ring
      have := ih (2 * v) hv2
      calc 100 * 2 ^ 52 ≤ (2 * v) * 2 ^ findScaleAux fuel (2 * v) := this
        _ = v * 2 ^ (findScaleAux fuel (2 * v) + 1) := by ring

/-- For values in the representable range of the earnings aggregates, the
binary scale is at least 7, so the conversion error of the double is far
below half a cent. -/
theorem findScale_ge_seven (c : Nat) (h1 : 1 ≤ c) (h2 : c ≤ 2 ^ 45) :
    7 ≤ findScale c := by
  have hreach : 100 * 2 ^ 52 ≤ c * 2 ^ findScale c := by
    apply findScaleAux_reaches
    calc (100 * 2 ^ 52 : Nat) ≤ 2 ^ 200 * 1 := by norm_num
      _ ≤ 2 ^ 200 * c := Nat.mul_le_mul_left _ h1
  by_contra hlt
  push_neg at hlt
  have hpow : (2 : Nat) ^ findScale c ≤ 2 ^ 6 :=
    Nat.pow_le_pow_right (by norm_num) (by omega)
  have : c * 2 ^ findScale c ≤ 2 ^ 45 * 2 ^ 6 := Nat.mul_le_mul h2 hpow
  have hcontra : 100 * 2 ^ 52 ≤ 2 ^ 45 * 2 ^ 6 := le_trans hreach this
  norm_num at hcontra

/-- Main exactness theorem for the formatting pipeline: for every cent
amount up to `2 ^ 45` (far beyond what the schema can hold), converting the
exact decimal `c / 100` to the nearest binary64 double and formatting it
with `toFixed(2)` prints the exact decimal amount — the float detour loses
nothing. -/
theorem jsFixed2OfCents_exact (c : Nat) (hc : c ≤ 2 ^ 45) :
    jsFixed2OfCents c = formatCents c := by
  by_cases h0 : c = 0
  · subst h0; rfl
  · have h1 : 1 ≤ c := Nat.one_le_iff_ne_zero.mpr h0
    have hs := findScale_ge_seven c h1 hc
    unfold jsFixed2OfCents
    rw [if_neg h0]
    dsimp only
    congr 1
    obtain ⟨hb1, hb2⟩ := rhe_100_bounds (c * 2 ^ findScale c)
    have hsplit : findScale c - 1 + 1 = findScale c := by omega
    have hP : (2 : Nat) ^ findScale c = 2 * 2 ^ (findScale c - 1) := by
      conv_lhs => rw [← hsplit]
      ring
    have h64 : 64 ≤ (2 : Nat) ^ (findScale c - 1) :=
      calc (64 : Nat) = 2 ^ 6 := by norm_num
        _ ≤ 2 ^ (findScale c - 1) := Nat.pow_le_pow_right (by norm_num) (by omega)
    apply Nat.div_eq_of_lt_le
    · calc c * 2 ^ findScale c ≤ 100 * rhe (c * 2 ^ findScale c) 100 + 50 := hb2
        _ ≤ 100 * rhe (c * 2 ^ findScale c) 100 + 2 ^ (findScale c - 1) := by omega
    · calc 100 * rhe (c * 2 ^ findScale c) 100 + 2 ^ (findScale c - 1)
          ≤ c * 2 ^ findScale c + 50 + 2 ^ (findScale c - 1) := by omega
        _ < c * 2 ^ findScale c + 2 ^ findScale c := by omega
        _ = (c + 1) * 2 ^ findScale c := by ring

/-! Helper lemmas: bounds on the exact earnings sums. -/

/-- Each click credits at most 5 cents, so the exact sum is bounded by
5 cents per click. -/
theorem sumEarnedCredit_le_bound (clicks : List Click)
    (hc : ∀ c ∈ clicks, c.earnedCredit = 5 ∨ c.earnedCredit = 0) :
    sumEarnedCredit clicks ≤ 5 * clicks.length := by
  unfold sumEarnedCredit
  have hb : ∀ x ∈ clicks.map (fun c => c.earnedCredit), x ≤ 5 := by
    intro x hx
    obtain ⟨c, hcm, rfl⟩ := List.mem_map.mp hx
    rcases hc c hcm with h | h <;> omega
  have h := List.sum_le_card_nsmul _ 5 hb
  simpa [smul_eq_mul, Nat.mul_comm] using h

/-- Sums over sublists of the click table stay within the range in which
the double round trip is exact, whenever the table holds at most `2 ^ 31`
rows (the `SERIAL` key caps it far lower). -/
theorem sumEarnedCredit_sublist_bound (st : Store) (l : List Click)
    (hc : ∀ c ∈ st.clicks, c.earnedCredit = 5 ∨ c.earnedCredit = 0)
    (hn : st.clicks.length ≤ 2 ^ 31)
    (hsub : l.Sublist st.clicks) : sumEarnedCredit l ≤ 2 ^ 45 := by
  have h5 : ∀ c ∈ l, c.earnedCredit = 5 ∨ c.earnedCredit = 0 :=
    fun c hm => hc c (hsub.subset hm)
  have hlen : l.length ≤ st.clicks.length := hsub.length_le
  calc sumEarnedCredit l ≤ 5 * l.length := sumEarnedCredit_le_bound l h5
    _ ≤ 5 * 2 ^ 31 := by omega
    _ ≤ 2 ^ 45 := by norm_num

/-- The clicks of a link form a sublist of the click table. -/
theorem clicksOf_sublist (st : Store) (linkId : Nat) :
    (clicksOf st linkId).Sublist st.clicks := List.filter_sublist st.clicks

/-- Every item `getStats` returns is the stats block of a stored link. -/
theorem getStats_data_mem (st : Store) (page limit : Nat) :
    ∀ item ∈ (getStats st page limit).data, ∃ link ∈ st.links, item = linkStats st link := by
  intro item hitem
  unfold getStats at hitem
  dsimp only at hitem
  obtain ⟨link, hlink, rfl⟩ := List.mem_map.mp hitem
  refine ⟨link, ?_, rfl⟩
  have h1 : link ∈ sortedLinks st :=
    (List.drop_sublist _ _).subset ((List.take_sublist _ _).subset hlink)
  exact (List.perm_insertionSort createdAtGe st.links).subset h1

/-- C1: for every link returned by getStats, totalEarnings is the exact
decimal sum of earnedCredit over that link's clicks, formatted to exactly
two decimal places as a string, with no binary floating-point drift — the
double conversion inside `Number(...).toFixed(2)` is proved lossless over
the whole representable range — and likewise each monthlyBreakdown row
carries the exact decimal sum for its own month: every row is exactly the
label, count and formatted exact sum of the same month key; in particular
20 valid clicks of 0.05 sum to exactly "1.00" (see the witness), for any
number of clicks the schema can hold. -/
theorem getStats_totalEarnings_exact (st : Store)
    (hc : ∀ c ∈ st.clicks, c.earnedCredit = 5 ∨ c.earnedCredit = 0)
    (hn : st.clicks.length ≤ 2 ^ 31) :
    (∀ page limit, ∀ item ∈ (getStats st page limit).data,
        ∃ link ∈ st.links, item = linkStats st link)
    ∧ ∀ link ∈ st.links,
        (linkStats st link).totalEarnings
            = formatCents (sumEarnedCredit (clicksOf st link.id))
        ∧ (linkStats st link).monthlyBreakdown
            = (monthsOf (clicksOf st link.id)).map (fun k =>
                ⟨pad2 k.2 ++ "/" ++ toString k.1,
                 ((clicksOf st link.id).filter (fun c => monthKey c == k)).length,
                 formatCents (sumEarnedCredit
                   ((clicksOf st link.id).filter (fun c => monthKey c == k)))⟩) := by
  constructor
  · intro page limit item hitem
    exact getStats_data_mem st page limit item hitem
  · intro link _
    constructor
    · show jsFixed2OfCents (sumEarnedCredit (clicksOf st link.id)) = _
      exact jsFixed2OfCents_exact _
        (sumEarnedCredit_sublist_bound st _ hc hn (clicksOf_sublist st link.id))
    · show monthlyBreakdown (clicksOf st link.id) = _
      unfold monthlyBreakdown
      apply List.map_congr_left
      intro k hk
      dsimp only
      rw [jsFixed2OfCents_exact _
        (sumEarnedCredit_sublist_bound st _ hc hn
          ((List.filter_sublist _).trans (clicksOf_sublist st link.id)))]

/-- Witness for C1: in a store with one link and 20 valid clicks of 0.05,
the formatted total is the exact decimal sum, that sum prints as exactly
"1.00" — no 0.9999... drift — and the single breakdown row carries its own
month's exact sum, concretely 01/2026 with 20 clicks and "1.00". -/
theorem getStats_totalEarnings_exact_witness :
    (linkStats storeTwenty linkA).totalEarnings
        = formatCents (sumEarnedCredit (clicksOf storeTwenty linkA.id))
    ∧ formatCents (sumEarnedCredit (clicksOf storeTwenty linkA.id)) = "1.00"
    ∧ (linkStats storeTwenty linkA).monthlyBreakdown
        = (monthsOf (clicksOf storeTwenty linkA.id)).map (fun k =>
            ⟨pad2 k.2 ++ "/" ++ toString k.1,
             ((clicksOf storeTwenty linkA.id).filter (fun c => monthKey c == k)).length,
             formatCents (sumEarnedCredit
               ((clicksOf storeTwenty linkA.id).filter (fun c => monthKey c == k)))⟩)
    ∧ (linkStats storeTwenty linkA).monthlyBreakdown = [⟨"01/2026", 20, "1.00"⟩] :=
  ⟨((getStats_totalEarnings_exact storeTwenty (by decide) (by decide)).2
      linkA (by decide)).1,
   by decide,
   ((getStats_totalEarnings_exact storeTwenty (by decide) (by decide)).2
      linkA (by decide)).2,
   by decide⟩

/-- C4: every click persisted by recordClick credits exactly 0.05
(5 cents, as `Prisma.Decimal('0.05')`) when the fraud validator returned
valid and exactly 0.00 when it returned invalid, never any other value, and
carries the resolved link's identifier and the validity flag. -/
theorem recordClick_credit (st : Store) (code : String) (f : Bool) (now : DateParts)
    (l : Link) (hl : findLinkByShortCode st code = some l) :
    recordClick st code f now
      = (⟨st.links, st.clicks ++ [⟨nextClickId st, l.id, f, if f then 5 else 0, now⟩]⟩, 1)
    ∧ ∀ c, c ∈ (recordClick st code f now).1.clicks → c ∉ st.clicks →
        c.linkId = l.id ∧ c.isValid = f ∧ c.earnedCredit = if f then 5 else 0 := by
  have h1 : recordClick st code f now
      = (⟨st.links, st.clicks ++ [⟨nextClickId st, l.id, f, if f then 5 else 0, now⟩]⟩, 1) := by
    simp [recordClick, hl]
  refine ⟨h1, ?_⟩
  intro c hc hnot
  rw [h1] at hc
  rcases List.mem_append.mp hc with h | h
  · exact absurd h hnot
  · simp only [List.mem_singleton] at h
    subst h
    exact ⟨rfl, rfl, rfl⟩

/-- Witness for C4: in the one-link fixture store, a valid click persists
with credit 5 cents and an invalid one with 0 cents. -/
theorem recordClick_credit_witness :
    recordClick storeA "abc12345" true ⟨2026, 1, 1⟩
      = (⟨storeA.links, storeA.clicks ++ [⟨nextClickId storeA, linkA.id, true, 5, ⟨2026, 1, 1⟩⟩]⟩, 1)
    ∧ recordClick storeA "abc12345" false ⟨2026, 1, 1⟩
      = (⟨storeA.links, storeA.clicks ++ [⟨nextClickId storeA, linkA.id, false, 0, ⟨2026, 1, 1⟩⟩]⟩, 1) :=
  ⟨(recordClick_credit storeA "abc12345" true ⟨2026, 1, 1⟩ linkA (by decide)).1,
   (recordClick_credit storeA "abc12345" false ⟨2026, 1, 1⟩ linkA (by decide)).1⟩

/-- C8: recordClick on a short code with no matching link is a silent
no-op — the store is unchanged, no click is persisted, the fraud validator
is never invoked (invocation count 0) and no error is produced — while a
matching link gets exactly one click persisted. -/
theorem recordClick_missing_noop (st : Store) (code : String) (f : Bool) (now : DateParts) :
    (findLinkByShortCode st code = none → recordClick st code f now = (st, 0))
    ∧ (∀ l, findLinkByShortCode st code = some l →
        (recordClick st code f now).1.links = st.links
        ∧ (recordClick st code f now).1.clicks.length = st.clicks.length + 1
        ∧ (recordClick st code f now).2 = 1) := by
  constructor
  · intro h; simp [recordClick, h]
  · intro l h; simp [recordClick, h]

/-- Witness for C8: an unknown code leaves the fixture store untouched with
zero validator invocations; the known code appends exactly one click. -/
theorem recordClick_missing_noop_witness :
    recordClick storeA "nope" true ⟨2026, 1, 1⟩ = (storeA, 0)
    ∧ (recordClick storeA "abc12345" true ⟨2026, 1, 1⟩).1.clicks.length
        = storeA.clicks.length + 1 :=
  ⟨(recordClick_missing_noop storeA "nope" true ⟨2026, 1, 1⟩).1 (by decide),
   ((recordClick_missing_noop storeA "abc12345" true ⟨2026, 1, 1⟩).2 linkA (by decide)).2.1⟩

/-- C7: resolve returns the stored targetUrl when the short code exists and
fails with NotFound when it does not; the store state it hands back is the
one it received — the operation is read-only, records no click and modifies
nothing. -/
theorem resolve_readonly_spec (st : Store) (code : String) :
    (resolve st code).2 = st
    ∧ (∀ l, findLinkByShortCode st code = some l →
        (resolve st code).1 = Except.ok l.targetUrl)
    ∧ (findLinkByShortCode st code = none →
        (resolve st code).1 = Except.error ResolveErr.notFound) := by
  refine ⟨?_, ?_, ?_⟩
  · rcases h : findLinkByShortCode st code with _ | l <;> simp [resolve, h]
  · intro l h; simp [resolve, h]
  · intro h; simp [resolve, h]

/-- Witness for C7: the fixture code resolves to its target URL and an
unknown code yields NotFound. -/
theorem resolve_readonly_spec_witness :
    (resolve storeA "abc12345").1 = Except.ok linkA.targetUrl
    ∧ (resolve storeA "nope").1 = Except.error ResolveErr.notFound :=
  ⟨(resolve_readonly_spec storeA "abc12345").2.1 linkA (by decide),
   (resolve_readonly_spec storeA "nope").2.2 (by decide)⟩

/-- C10: in the redirect handler the redirect response is committed before
the click-recording sequence appears in the event trace, the response is
the same whatever the detached sequence does (the handler does not await
it), and a failure of the detached sequence only adds a log entry — it
never becomes a user-visible error and never alters the redirect already
sent. -/
theorem redirect_detached_spec (st : Store) (code : String) (now : DateParts)
    (l : Link) (hl : findLinkByShortCode st code = some l) :
    ∀ f rf f2 rf2 : Bool,
      (redirectHandler st code f rf now).1.response = Except.ok (302, l.targetUrl)
      ∧ (redirectHandler st code f rf now).1.events.head?
          = some (RedirectEvent.redirectSent l.targetUrl 302)
      ∧ (redirectHandler st code f rf now).1.response
          = (redirectHandler st code f2 rf2 now).1.response
      ∧ (rf = true →
          (redirectHandler st code f rf now).1.events
            = [RedirectEvent.redirectSent l.targetUrl 302, RedirectEvent.errorLogged]
          ∧ (redirectHandler st code f rf now).2 = st) := by
  intro f rf f2 rf2
  have hres : resolve st code = (Except.ok l.targetUrl, st) := by simp [resolve, hl]
  refine ⟨?_, ?_, ?_, ?_⟩
  · cases rf <;> simp [redirectHandler, hres]
  · cases rf <;> simp [redirectHandler, hres]
  · cases rf <;> cases rf2 <;> simp [redirectHandler, hres]
  · intro hrf; subst hrf; simp [redirectHandler, hres]

/-- Witness for C10: on the fixture store the redirect is 302 to the stored
URL, heads the event trace, is identical whether or not the detached
recording fails, and a failing recording only logs. -/
theorem redirect_detached_spec_witness :
    (redirectHandler storeA "abc12345" true true ⟨2026, 1, 1⟩).1.response
        = Except.ok (302, linkA.targetUrl)
    ∧ (redirectHandler storeA "abc12345" true true ⟨2026, 1, 1⟩).1.events
        = [RedirectEvent.redirectSent linkA.targetUrl 302, RedirectEvent.errorLogged] :=
  ⟨(redirect_detached_spec storeA "abc12345" ⟨2026, 1, 1⟩ linkA (by decide)
      true true false false).1,
   ((redirect_detached_spec storeA "abc12345" ⟨2026, 1, 1⟩ linkA (by decide)
      true true false false).2.2.2 rfl).1⟩

/-! Helper lemmas: the createLink retry loop. -/

/-- A store with no link for a target URL answers neither the dedup lookup
nor the uniqueness check for that URL. -/
theorem findByUrl_none (st : Store) (url : String)
    (hurl : ∀ l ∈ st.links, l.targetUrl ≠ url) :
    findLinkByTargetUrl st url = none
    ∧ (st.links.any fun l => l.targetUrl == url) = false := by
  constructor
  · exact List.find?_eq_none.mpr (fun x hx => by simp only [beq_iff_eq]; exact hurl x hx)
  · exact List.any_eq_false.mpr (fun x hx => by simp only [beq_iff_eq]; exact hurl x hx)

/-- Unfolding equation of the retry loop on an empty attempt budget. -/
theorem createLinkLoop_nil (st : Store) (url : String) (now : Nat) :
    createLinkLoop st url now [] = (Except.error CreateErr.retriesExhausted, st, 0) := rfl

/-- Unfolding equation of the retry loop on one more attempt. -/
theorem createLinkLoop_cons (st : Store) (url : String) (now : Nat)
    (code : String) (rest : List String) :
    createLinkLoop st url now (code :: rest)
      = (match insertLink st code url now with
        | InsertResult.ok st2 l => (Except.ok ⟨l.shortCode, l.targetUrl, true⟩, st2, 1)
        | InsertResult.uniqueTargetUrl =>
          match findLinkByTargetUrl st url with
          | some existing =>
            (Except.ok ⟨existing.shortCode, existing.targetUrl, false⟩, st, 1)
          | none =>
            match rest with
            | [] => (Except.error CreateErr.codeSpaceExhausted, st, 1)
            | _ :: _ =>
              match createLinkLoop st url now rest with
              | (r, st2, k) => (r, st2, k + 1)
        | InsertResult.uniqueShortCode =>
          match rest with
          | [] => (Except.error CreateErr.codeSpaceExhausted, st, 1)
          | _ :: _ =>
            match createLinkLoop st url now rest with
            | (r, st2, k) => (r, st2, k + 1)) := rfl

/-- On a store without the target URL, a successful pass through the retry
loop appends exactly one link carrying that URL and reports it as new. -/
theorem createLinkLoop_ok (st : Store) (url : String) (now : Nat) (codes : List String)
    (hurl : ∀ l ∈ st.links, l.targetUrl ≠ url) :
    ∀ r st2 k, createLinkLoop st url now codes = (Except.ok r, st2, k) →
      r.targetUrl = url ∧ r.isNew = true
      ∧ st2.links = st.links ++ [⟨nextLinkId st, r.shortCode, url, now⟩]
      ∧ st2.clicks = st.clicks := by
  obtain ⟨hfind, hany⟩ := findByUrl_none st url hurl
  induction codes with
  | nil => intro r st2 k h; rw [createLinkLoop_nil] at h; simp at h
  | cons code rest ih =>
    intro r st2 k h
    rw [createLinkLoop_cons] at h
    rcases hins : insertLink st code url now with _ | _ | _ <;> rw [hins] at h
    · rename_i st3 l
      unfold insertLink at hins
      rw [hany] at hins
      simp only [Bool.false_eq_true, if_false] at hins
      by_cases hcode : (st.links.any fun x => x.shortCode == code) = true
      · rw [if_pos hcode] at hins; cases hins
      · rw [if_neg hcode] at hins
        injection hins with h1 h2
        subst h1; subst h2
        injection h with hr hrest
        injection hr with hr
        injection hrest with hst hk
        subst hst
        cases hr
        exact ⟨rfl, rfl, rfl, rfl⟩
    · unfold insertLink at hins
      rw [hany] at hins
      simp only [Bool.false_eq_true, if_false] at hins
      by_cases hcode : (st.links.any fun x => x.shortCode == code) = true
      · rw [if_pos hcode] at hins; cases hins
      · rw [if_neg hcode] at hins; cases hins
    · cases rest with
      | nil => simp at h
      | cons c2 r2 =>
        rcases hrec : createLinkLoop st url now (c2 :: r2) with ⟨r3, st3, k3⟩
        rw [hrec] at h
        dsimp only at h
        injection h with h1 hrest
        injection hrest with h2 h3
        subst h1; subst h2
        exact ih _ _ _ hrec

/-- A failing pass through the retry loop leaves the store unchanged: no
failed insert attempt persists anything. -/
theorem createLinkLoop_error (st : Store) (url : String) (now : Nat) (codes : List String) :
    ∀ e st2 k, createLinkLoop st url now codes = (Except.error e, st2, k) → st2 = st := by
  induction codes with
  | nil =>
    intro e st2 k h
    rw [createLinkLoop_nil] at h
    injection h with h1 hrest
    injection hrest with h2 h3
    exact h2.symm
  | cons code rest ih =>
    intro e st2 k h
    rw [createLinkLoop_cons] at h
    rcases hins : insertLink st code url now with _ | _ | _ <;> rw [hins] at h
    · simp at h
    · rcases hfind : findLinkByTargetUrl st url with _ | l <;> rw [hfind] at h
      · cases rest with
        | nil =>
          injection h with h1 hrest
          injection hrest with h2 h3
          exact h2.symm
        | cons c2 r2 =>
          rcases hrec : createLinkLoop st url now (c2 :: r2) with ⟨r3, st3, k3⟩
          rw [hrec] at h
          dsimp only at h
          injection h with h1 hrest
          injection hrest with h2 h3
          subst h1; subst h2
          exact ih _ _ _ hrec
      · simp at h
    · cases rest with
      | nil =>
        injection h with h1 hrest
        injection hrest with h2 h3
        exact h2.symm
      | cons c2 r2 =>
        rcases hrec : createLinkLoop st url now (c2 :: r2) with ⟨r3, st3, k3⟩
        rw [hrec] at h
        dsimp only at h
        injection h with h1 hrest
        injection hrest with h2 h3
        subst h1; subst h2
        exact ih _ _ _ hrec

/-- C3: when the insert inside createLink fails with a uniqueness violation
on targetUrl (a concurrent writer created the same target between the dedup
lookup and the insert), the loop re-reads the now-existing link and returns
its shortCode and targetUrl with isNew = false after a single insert
attempt, with the store unchanged — the conflict is never surfaced as an
error and is not treated as a retryable code collision. -/
theorem createLink_targetUrl_race (st : Store) (url : String) (now : Nat)
    (l : Link) (hl : findLinkByTargetUrl st url = some l)
    (code : String) (rest : List String) :
    createLinkLoop st url now (code :: rest)
      = (Except.ok ⟨l.shortCode, l.targetUrl, false⟩, st, 1) := by
  have hl2 : st.links.find? (fun x => x.targetUrl == url) = some l := hl
  have hmem : l ∈ st.links := List.mem_of_find?_eq_some hl2
  have hp : (l.targetUrl == url) = true :=
    @List.find?_some Link (fun x => x.targetUrl == url) l st.links hl2
  have hany : (st.links.any fun x => x.targetUrl == url) = true :=
    List.any_eq_true.mpr ⟨l, hmem, hp⟩
  have hins : insertLink st code url now = InsertResult.uniqueTargetUrl := by
    unfold insertLink; rw [if_pos hany]
  rw [createLinkLoop_cons, hins, hl]

/-- Witness for C3: on a store already holding the target URL under code
`c0`, a loop pass with any fresh code returns the existing row, isNew
false, one attempt, no error. -/
theorem createLink_targetUrl_race_witness :
    createLinkLoop storeTwoCodes "https://b.com" 99 ("zzz" :: ["yyy"])
      = (Except.ok ⟨"c0", "https://b.com", false⟩, storeTwoCodes, 1) :=
  createLink_targetUrl_race storeTwoCodes "https://b.com" 99
    ⟨1, "c0", "https://b.com", 11⟩ (by decide) "zzz" ["yyy"]

/-- C2: short-code collisions inside createLink are retried with a fresh
random code, bounded to 3 insert attempts total; a generator colliding on
the first two draws succeeds on the third attempt with exactly 3 insert
attempts made, and a generator that always collides makes createLink fail
after exactly 3 attempts, surfacing the error to the caller with the store
unchanged. -/
theorem createLink_collision_bound (st : Store) (url : String) (gen : Nat → String)
    (now : Nat) (hurl : ∀ l ∈ st.links, l.targetUrl ≠ url) :
    ((∃ l ∈ st.links, l.shortCode = gen 0) → (∃ l ∈ st.links, l.shortCode = gen 1) →
      (∀ l ∈ st.links, l.shortCode ≠ gen 2) →
      createLink st url gen now
        = (Except.ok ⟨gen 2, url, true⟩,
           ⟨st.links ++ [⟨nextLinkId st, gen 2, url, now⟩], st.clicks⟩, 3))
    ∧ ((∀ i, i < 3 → ∃ l ∈ st.links, l.shortCode = gen i) →
      createLink st url gen now = (Except.error CreateErr.codeSpaceExhausted, st, 3)) := by
  obtain ⟨hfind, hanyUrl⟩ := findByUrl_none st url hurl
  have hred : createLink st url gen now = createLinkLoop st url now [gen 0, gen 1, gen 2] := by
    unfold createLink
    rw [hfind]
    rfl
  have collOf : ∀ i, (∃ l ∈ st.links, l.shortCode = gen i) →
      insertLink st (gen i) url now = InsertResult.uniqueShortCode := by
    intro i hi
    obtain ⟨l0, hmem, he⟩ := hi
    have hcoll : (st.links.any fun x => x.shortCode == gen i) = true :=
      List.any_eq_true.mpr ⟨l0, hmem, by simp [he]⟩
    simp [insertLink, hanyUrl, hcoll]
  constructor
  · intro h0 h1 h2
    have hfresh : (st.links.any fun x => x.shortCode == gen 2) = false :=
      List.any_eq_false.mpr (fun x hx => by simp only [beq_iff_eq]; exact h2 x hx)
    have hins2 : insertLink st (gen 2) url now
        = InsertResult.ok ⟨st.links ++ [⟨nextLinkId st, gen 2, url, now⟩], st.clicks⟩
            ⟨nextLinkId st, gen 2, url, now⟩ := by
      simp [insertLink, hanyUrl, hfresh]
    have e2 : createLinkLoop st url now [gen 2]
        = (Except.ok ⟨gen 2, url, true⟩,
           ⟨st.links ++ [⟨nextLinkId st, gen 2, url, now⟩], st.clicks⟩, 1) := by
      rw [createLinkLoop_cons, hins2]
    have e1 : createLinkLoop st url now [gen 1, gen 2]
        = (Except.ok ⟨gen 2, url, true⟩,
           ⟨st.links ++ [⟨nextLinkId st, gen 2, url, now⟩], st.clicks⟩, 2) := by
      rw [createLinkLoop_cons, collOf 1 h1]
      dsimp only
      rw [e2]
    rw [hred, createLinkLoop_cons, collOf 0 h0]
    dsimp only
    rw [e1]
  · intro hall
    have e2 : createLinkLoop st url now [gen 2]
        = (Except.error CreateErr.codeSpaceExhausted, st, 1) := by
      rw [createLinkLoop_cons, collOf 2 (hall 2 (by omega))]
    have e1 : createLinkLoop st url now [gen 1, gen 2]
        = (Except.error CreateErr.codeSpaceExhausted, st, 2) := by
      rw [createLinkLoop_cons, collOf 1 (hall 1 (by omega))]
      dsimp only
      rw [e2]
    rw [hred, createLinkLoop_cons, collOf 0 (hall 0 (by omega))]
    dsimp only
    rw [e1]

/-- Witness for C2: with codes c0 and c1 taken, the draw sequence c0, c1,
c2 succeeds on the third attempt with exactly 3 insert attempts; with c0,
c1 and c2 all taken, every draw collides and createLink fails after exactly
3 attempts with the store unchanged. -/
theorem createLink_collision_bound_witness :
    createLink storeTwoCodes "https://new.com" genC 99
      = (Except.ok ⟨"c2", "https://new.com", true⟩,
         ⟨storeTwoCodes.links ++ [⟨nextLinkId storeTwoCodes, "c2", "https://new.com", 99⟩],
          storeTwoCodes.clicks⟩, 3)
    ∧ createLink storeThreeCodes "https://new.com" genC 99
      = (Except.error CreateErr.codeSpaceExhausted, storeThreeCodes, 3) :=
  ⟨(createLink_collision_bound storeTwoCodes "https://new.com" genC 99 (by decide)).1
      (by decide) (by decide) (by decide),
   (createLink_collision_bound storeThreeCodes "https://new.com" genC 99 (by decide)).2
      (by decide)⟩

/-- C9: createLink is dedup-idempotent — when a link for the target URL
exists, the lookup path returns it with isNew = false, zero insert attempts
and an unchanged store; after any successful createLink, a repeated call
returns the same shortCode with isNew = false and changes nothing; and
createLink preserves at-most-one-link-per-targetUrl. -/
theorem createLink_dedup_idempotent (st : Store) (url : String) (gen gen2 : Nat → String)
    (now now2 : Nat) :
    (∀ l, findLinkByTargetUrl st url = some l →
      createLink st url gen now = (Except.ok ⟨l.shortCode, l.targetUrl, false⟩, st, 0))
    ∧ (∀ r st2 k, createLink st url gen now = (Except.ok r, st2, k) →
        createLink st2 url gen2 now2 = (Except.ok ⟨r.shortCode, r.targetUrl, false⟩, st2, 0))
    ∧ ((st.links.map (fun l => l.targetUrl)).Nodup →
        ((createLink st url gen now).2.1.links.map (fun l => l.targetUrl)).Nodup) := by
  refine ⟨?_, ?_, ?_⟩
  · intro l h
    unfold createLink
    rw [h]
  · intro r st2 k h
    rcases hfind : findLinkByTargetUrl st url with _ | l
    · have hurl : ∀ x ∈ st.links, x.targetUrl ≠ url := by
        have h0 : st.links.find? (fun x => x.targetUrl == url) = none := hfind
        intro x hx
        have := List.find?_eq_none.mp h0 x hx
        simpa using this
      have hred : createLink st url gen now
          = createLinkLoop st url now ((List.range maxRetries).map gen) := by
        unfold createLink; rw [hfind]
      rw [hred] at h
      obtain ⟨hrurl, hrnew, hlinks, hclicks⟩ :=
        createLinkLoop_ok st url now _ hurl r st2 k h
      have hnone : st.links.find? (fun x => x.targetUrl == url) = none := hfind
      have hfind2 : findLinkByTargetUrl st2 url
          = some ⟨nextLinkId st, r.shortCode, url, now⟩ := by
        show st2.links.find? (fun x => x.targetUrl == url) = _
        rw [hlinks, List.find?_append, hnone]
        simp
      unfold createLink
      rw [hfind2, hrurl]
    · have h1 : createLink st url gen now
          = (Except.ok ⟨l.shortCode, l.targetUrl, false⟩, st, 0) := by
        unfold createLink; rw [hfind]
      rw [h1] at h
      injection h with ha hb
      injection hb with hb hc
      injection ha with ha
      subst ha; subst hb
      unfold createLink
      rw [hfind]
  · intro hnodup
    rcases hfind : findLinkByTargetUrl st url with _ | l
    · have hurl : ∀ x ∈ st.links, x.targetUrl ≠ url := by
        have h0 : st.links.find? (fun x => x.targetUrl == url) = none := hfind
        intro x hx
        have := List.find?_eq_none.mp h0 x hx
        simpa using this
      have hred : createLink st url gen now
          = createLinkLoop st url now ((List.range maxRetries).map gen) := by
        unfold createLink; rw [hfind]
      rw [hred]
      rcases hloop : createLinkLoop st url now ((List.range maxRetries).map gen)
        with ⟨res, st2, k⟩
      cases res with
      | error e =>
        have hst2 : st2 = st := createLinkLoop_error st url now _ e st2 k hloop
        dsimp only
        rw [hst2]
        exact hnodup
      | ok r =>
        obtain ⟨hrurl, hrnew, hlinks, hclicks⟩ :=
          createLinkLoop_ok st url now _ hurl r st2 k hloop
        dsimp only
        rw [hlinks, List.map_append]
        have hnotin : url ∉ st.links.map (fun x => x.targetUrl) := by
          intro hmem
          obtain ⟨x, hx, hxe⟩ := List.mem_map.mp hmem
          exact hurl x hx hxe
        refine List.Nodup.append hnodup (List.nodup_singleton _) ?_
        intro a ha hb
        simp only [List.map_cons, List.map_nil, List.mem_singleton] at hb
        subst hb
        exact hnotin ha
    · have h1 : createLink st url gen now
          = (Except.ok ⟨l.shortCode, l.targetUrl, false⟩, st, 0) := by
        unfold createLink; rw [hfind]
      rw [h1]
      exact hnodup

/-- Witness for C9: the fixture URL dedups to the existing link with zero
inserts; after a fresh creation the repeated call returns the same code
with isNew false and no store change; target-URL uniqueness is preserved. -/
theorem createLink_dedup_idempotent_witness :
    createLink storeA "https://a.com" genC 99
      = (Except.ok ⟨"abc12345", "https://a.com", false⟩, storeA, 0)
    ∧ createLink (⟨[linkA, ⟨2, "c0", "https://x.com", 99⟩], []⟩ : Store) "https://x.com" genC 100
      = (Except.ok ⟨"c0", "https://x.com", false⟩,
         (⟨[linkA, ⟨2, "c0", "https://x.com", 99⟩], []⟩ : Store), 0)
    ∧ ((createLink storeA "https://x.com" genC 99).2.1.links.map
        (fun l => l.targetUrl)).Nodup :=
  ⟨(createLink_dedup_idempotent storeA "https://a.com" genC genC 99 99).1 linkA (by decide),
   (createLink_dedup_idempotent storeA "https://x.com" genC genC 99 100).2.1
     ⟨"c0", "https://x.com", true⟩ ⟨[linkA, ⟨2, "c0", "https://x.com", 99⟩], []⟩ 1 (by decide),
   (createLink_dedup_idempotent storeA "https://x.com" genC genC 99 99).2.2 (by decide)⟩

/-- C6: getStats pages through links most recent first with offset
`(page - 1) * limit` and page size `limit`, returns metadata
`{page, limit, totalItems, totalPages}` with `totalPages` the exact ceiling
of `totalItems / limit`, and a page beyond the available range yields an
empty items list with correct, non-error metadata. -/
theorem getStats_pagination (st : Store) (page limit : Nat)
    (_hp : 1 ≤ page) (hl : 1 ≤ limit) :
    (getStats st page limit).meta
      = ⟨page, limit, st.links.length, (st.links.length + limit - 1) / limit⟩
    ∧ ((getStats st page limit).meta.totalPages : ℤ)
        = ⌈(st.links.length : ℚ) / (limit : ℚ)⌉
    ∧ (st.links.length ≤ (page - 1) * limit → (getStats st page limit).data = [])
    ∧ (getStats st page limit).data.length ≤ limit
    ∧ (getStats st page limit).data
        = (((sortedLinks st).drop ((page - 1) * limit)).take limit).map (linkStats st)
    ∧ (sortedLinks st).Perm st.links
    ∧ List.Pairwise createdAtGe (sortedLinks st) := by
  refine ⟨rfl, ?_, ?_, ?_, rfl, List.perm_insertionSort createdAtGe st.links,
    List.sorted_insertionSort createdAtGe st.links⟩
  · have hq := Nat.div_add_mod (st.links.length + limit - 1) limit
    have hr : (st.links.length + limit - 1) % limit < limit :=
      Nat.mod_lt _ (by omega)
    show (((st.links.length + limit - 1) / limit : Nat) : ℤ)
        = ⌈(st.links.length : ℚ) / (limit : ℚ)⌉
    set N := st.links.length with hN
    set q := (N + limit - 1) / limit with hqdef
    have h1 : N ≤ limit * q := by omega
    have h2 : limit * q < N + limit := by omega
    have hLpos : (0 : ℚ) < (limit : ℚ) := by exact_mod_cast Nat.lt_of_lt_of_le Nat.zero_lt_one hl
    symm
    rw [Int.ceil_eq_iff]
    constructor
    · rw [lt_div_iff₀ hLpos]
      push_cast
      have h2Q : (limit : ℚ) * (q : ℚ) < (N : ℚ) + (limit : ℚ) := by exact_mod_cast h2
      nlinarith
    · rw [div_le_iff₀ hLpos]
      push_cast
      have h1Q : (N : ℚ) ≤ (limit : ℚ) * (q : ℚ) := by exact_mod_cast h1
      nlinarith
  · intro hbeyond
    show (((sortedLinks st).drop ((page - 1) * limit)).take limit).map (linkStats st) = []
    have hlen : (sortedLinks st).length = st.links.length :=
      (List.perm_insertionSort createdAtGe st.links).length_eq
    rw [List.drop_eq_nil_of_le (by omega)]
    simp
  · show ((((sortedLinks st).drop ((page - 1) * limit)).take limit).map (linkStats st)).length
        ≤ limit
    rw [List.length_map, List.length_take]
    exact min_le_left _ _

/-- Witness for C6: with 42 links and limit 10, totalPages is 5, and page 6
returns an empty items list with totalItems 42 and page 6 in the
metadata. -/
theorem getStats_pagination_witness :
    (getStats storeFortyTwo 6 10).meta = ⟨6, 10, 42, 5⟩
    ∧ (getStats storeFortyTwo 6 10).data = [] :=
  ⟨(getStats_pagination storeFortyTwo 6 10 (by decide) (by decide)).1,
   (getStats_pagination storeFortyTwo 6 10 (by decide) (by decide)).2.2.1 (by decide)⟩

/-- C5: for a link in a getStats page, monthlyBreakdown groups the link's
clicks by calendar month of clickedAt, labels each group "MM/YYYY", counts
its clicks, sums its earnings exactly (two-decimal format), orders the
groups chronologically ascending (strictly, so each month appears once),
and omits months with zero clicks — a month appears exactly when at least
one click falls in it, and every listed row counts at least one click. -/
theorem getStats_monthlyBreakdown_correct (st : Store) (link : Link)
    (hc : ∀ c ∈ st.clicks, c.earnedCredit = 5 ∨ c.earnedCredit = 0)
    (hn : st.clicks.length ≤ 2 ^ 31) :
    List.Pairwise monthLt (monthsOf (clicksOf st link.id))
    ∧ (∀ k, k ∈ monthsOf (clicksOf st link.id)
        ↔ ∃ c ∈ clicksOf st link.id, monthKey c = k)
    ∧ (linkStats st link).monthlyBreakdown
      = (monthsOf (clicksOf st link.id)).map (fun k =>
          ⟨pad2 k.2 ++ "/" ++ toString k.1,
           ((clicksOf st link.id).filter (fun c => monthKey c == k)).length,
           formatCents (sumEarnedCredit
             ((clicksOf st link.id).filter (fun c => monthKey c == k)))⟩)
    ∧ ∀ r ∈ (linkStats st link).monthlyBreakdown, 1 ≤ r.clicks := by
  have hmem : ∀ k, k ∈ monthsOf (clicksOf st link.id)
      ↔ ∃ c ∈ clicksOf st link.id, monthKey c = k := by
    intro k
    unfold monthsOf
    rw [(List.perm_insertionSort monthLe _).mem_iff, List.mem_dedup, List.mem_map]
  refine ⟨?_, hmem, ?_, ?_⟩
  · have hsorted : List.Pairwise monthLe (monthsOf (clicksOf st link.id)) :=
      List.sorted_insertionSort monthLe ((clicksOf st link.id).map monthKey).dedup
    have hnodup : (monthsOf (clicksOf st link.id)).Nodup :=
      (List.perm_insertionSort monthLe _).nodup_iff.mpr
        (List.nodup_dedup ((clicksOf st link.id).map monthKey))
    refine (hsorted.and hnodup).imp ?_
    intro a b hab
    obtain ⟨hle, hne⟩ := hab
    have hcomp : ¬(a.1 = b.1 ∧ a.2 = b.2) := by
      intro hco
      exact hne (Prod.ext hco.1 hco.2)
    unfold monthLe at hle
    unfold monthLt
    omega
  · show monthlyBreakdown (clicksOf st link.id) = _
    unfold monthlyBreakdown
    apply List.map_congr_left
    intro k hk
    dsimp only
    rw [jsFixed2OfCents_exact _
      (sumEarnedCredit_sublist_bound st _ hc hn
        ((List.filter_sublist _).trans (clicksOf_sublist st link.id)))]
  · intro r hr
    have hr2 : r ∈ monthlyBreakdown (clicksOf st link.id) := hr
    unfold monthlyBreakdown at hr2
    obtain ⟨k, hk, rfl⟩ := List.mem_map.mp hr2
    obtain ⟨c, hcm, hce⟩ := (hmem k).mp hk
    dsimp only
    exact List.length_pos_of_mem
      (List.mem_filter.mpr ⟨hcm, by simp [hce]⟩)

/-- Witness for C5: clicks on 2025-12-15, 2025-12-28 and 2026-01-03 yield
exactly the rows 12/2025 (2 clicks, 0.10) then 01/2026 (1 click, 0.05), in
that order. -/
theorem getStats_monthlyBreakdown_correct_witness :
    (linkStats storeMonths linkA).monthlyBreakdown
      = (monthsOf (clicksOf storeMonths linkA.id)).map (fun k =>
          ⟨pad2 k.2 ++ "/" ++ toString k.1,
           ((clicksOf storeMonths linkA.id).filter (fun c => monthKey c == k)).length,
           formatCents (sumEarnedCredit
             ((clicksOf storeMonths linkA.id).filter (fun c => monthKey c == k)))⟩)
    ∧ (linkStats storeMonths linkA).monthlyBreakdown
      = [⟨"12/2025", 2, "0.10"⟩, ⟨"01/2026", 1, "0.05"⟩] :=
  ⟨(getStats_monthlyBreakdown_correct storeMonths linkA (by decide) (by decide)).2.2.1,
   by decide⟩
